import Mathlib

/-!
Verification of the OnionMotion frame store, playback controller and export
pipeline (static/JS/app.js), as a shallow embedding in Lean.

Strings are modelled as Lean strings (lists of unicode scalar characters),
the browser localStorage record as an optional string, and the JSON
serialisation performed by JSON.stringify / JSON.parse on the persisted
frame list as an executable serializer and parser specialised to the exact
record shape the store writes: an array of objects with fields id, dataUrl
and timestamp (in that insertion order, which is the order JSON.stringify
emits).  The parser fails, as JSON.parse throws, on input it cannot parse.
-/

/-- A persisted frame record, as created by FrameStore.addFrame:
an id string, the encoded image payload (data URL) and the creation
timestamp in epoch milliseconds. -/
structure Frame where
  id : String
  dataUrl : String
  timestamp : Nat
deriving DecidableEq, Repr

/-- Hexadecimal digit character (lowercase), as used in JSON \u escapes. -/
def hexCh (n : Nat) : Char :=
  Char.ofNat (if n < 10 then 48 + n else 87 + n)

/-- Decimal digit character. -/
def digitCh (n : Nat) : Char :=
  Char.ofNat (48 + n)

/-- JSON.stringify escaping of a single character inside a string literal:
quote and backslash are backslash-escaped, the five named control
characters get their short escapes, other control characters get a
four-digit \u escape, and every other character is emitted literally. -/
def escapeChar (c : Char) : List Char :=
  if c = ('"' : Char) then [('\\' : Char), ('"' : Char)]
  else if c = ('\\' : Char) then [('\\' : Char), ('\\' : Char)]
  else if c.toNat < 32 then
    if c = ('\x08' : Char) then [('\\' : Char), ('b' : Char)]
    else if c = ('\t' : Char) then [('\\' : Char), ('t' : Char)]
    else if c = ('\n' : Char) then [('\\' : Char), ('n' : Char)]
    else if c = ('\x0c' : Char) then [('\\' : Char), ('f' : Char)]
    else if c = ('\r' : Char) then [('\\' : Char), ('r' : Char)]
    else [('\\' : Char), ('u' : Char), ('0' : Char), ('0' : Char),
          hexCh (c.toNat / 16), hexCh (c.toNat % 16)]
  else [c]

/-- Escape every character of a string body. -/
def escChars (l : List Char) : List Char :=
  l.foldr (fun c acc => escapeChar c ++ acc) []

/-- A JSON string literal: opening quote, escaped body, closing quote. -/
def strLit (l : List Char) : List Char :=
  ('"' : Char) :: escChars l ++ [('"' : Char)]

/-- Value of a hexadecimal digit character, if it is one. -/
def hexVal (c : Char) : Option Nat :=
  if 48 ≤ c.toNat ∧ c.toNat ≤ 57 then some (c.toNat - 48)
  else if 97 ≤ c.toNat ∧ c.toNat ≤ 102 then some (c.toNat - 87)
  else if 65 ≤ c.toNat ∧ c.toNat ≤ 70 then some (c.toNat - 55)
  else none

/-- Parse a four-hex-digit \u escape payload. -/
def parseU : List Char → Option (Char × List Char)
  | h1 :: h2 :: h3 :: h4 :: rest3 =>
    match hexVal h1, hexVal h2, hexVal h3, hexVal h4 with
    | some a, some b, some c2, some d =>
      some (Char.ofNat (((a * 16 + b) * 16 + c2) * 16 + d), rest3)
    | _, _, _, _ => none
  | _ => none

/-- Parse one escape sequence after a backslash inside a JSON string
literal, returning the decoded character and the remaining input. -/
def parseEsc : List Char → Option (Char × List Char)
  | [] => none
  | e :: rest2 =>
    if e = ('"' : Char) then some (('"' : Char), rest2)
    else if e = ('\\' : Char) then some (('\\' : Char), rest2)
    else if e = ('b' : Char) then some (('\x08' : Char), rest2)
    else if e = ('t' : Char) then some (('\t' : Char), rest2)
    else if e = ('n' : Char) then some (('\n' : Char), rest2)
    else if e = ('f' : Char) then some (('\x0c' : Char), rest2)
    else if e = ('r' : Char) then some (('\r' : Char), rest2)
    else if e = ('u' : Char) then parseU rest2
    else none

theorem parseU_length {l : List Char} {d : Char} {r : List Char}
    (h : parseU l = some (d, r)) : r.length < l.length := by
  match l with
  | [] => simp [parseU] at h
  | [a] => simp [parseU] at h
  | [a, b] => simp [parseU] at h
  | [a, b, c] => simp [parseU] at h
  | a :: b :: c :: e :: rest =>
    rw [parseU] at h
    rcases h1 : hexVal a with _ | v1 <;> rcases h2 : hexVal b with _ | v2 <;>
      rcases h3 : hexVal c with _ | v3 <;> rcases h4 : hexVal e with _ | v4 <;>
      simp [h1, h2, h3, h4] at h
    rcases h with ⟨h5, h6⟩
    simp [← h6]
    omega

theorem parseEsc_length {l : List Char} {d : Char} {r : List Char}
    (h : parseEsc l = some (d, r)) : r.length < l.length := by
  match l with
  | [] => simp [parseEsc] at h
  | e :: rest2 =>
    rw [parseEsc] at h
    by_cases h1 : e = ('"' : Char)
    · simp [h1] at h; simp [← h.2]
    · by_cases h2 : e = ('\\' : Char)
      · simp [h1, h2] at h; simp [← h.2]
      · by_cases h3 : e = ('b' : Char)
        · simp [h1, h2, h3] at h; simp [← h.2]
        · by_cases h4 : e = ('t' : Char)
          · simp [h1, h2, h3, h4] at h; simp [← h.2]
          · by_cases h5 : e = ('n' : Char)
            · simp [h1, h2, h3, h4, h5] at h; simp [← h.2]
            · by_cases h6 : e = ('f' : Char)
              · simp [h1, h2, h3, h4, h5, h6] at h; simp [← h.2]
              · by_cases h7 : e = ('r' : Char)
                · simp [h1, h2, h3, h4, h5, h6, h7] at h; simp [← h.2]
                · by_cases h8 : e = ('u' : Char)
                  · simp only [h1, h2, h3, h4, h5, h6, h7, h8, if_false, if_true] at h
                    have := parseU_length h
                    simp only [List.length_cons]
                    omega
                  · simp [h1, h2, h3, h4, h5, h6, h7, h8] at h

/-- Fuel-bounded worker for the string-body parser, structurally recursive
on the fuel so that concrete runs reduce inside the kernel.  One unit of
fuel is spent per decoded character, so any fuel above the input length
suffices (parseEsc_length shows each step consumes input). -/
def parseStrBodyF : Nat → List Char → Option (List Char × List Char)
  | 0, _ => none
  | fuel + 1, l =>
    match l with
    | [] => none
    | c :: rest =>
      if c = ('"' : Char) then some ([], rest)
      else if c = ('\\' : Char) then
        match parseEsc rest with
        | some (d, rest2) => (parseStrBodyF fuel rest2).map (fun p => (d :: p.1, p.2))
        | none => none
      else (parseStrBodyF fuel rest).map (fun p => (c :: p.1, p.2))

/-- Parse the body of a JSON string literal after the opening quote,
up to and including the closing quote, handling the escapes that
JSON.parse accepts for the output of JSON.stringify.  Returns the
decoded body and the remaining input, or none on malformed input. -/
def parseStrBody (l : List Char) : Option (List Char × List Char) :=
  parseStrBodyF (l.length + 1) l

/-- Decimal digits of a natural number, most significant first,
prepended to an accumulator (the standard printing loop). -/
def natDigitsGo (n : Nat) (acc : List Char) : List Char :=
  if h : n < 10 then digitCh n :: acc
  else natDigitsGo (n / 10) (digitCh (n % 10) :: acc)
termination_by n
decreasing_by exact Nat.div_lt_self (by omega) (by omega)

/-- Fuel-bounded digits worker, structurally recursive on the fuel so that
concrete runs reduce inside the kernel; one unit of fuel is spent per
decimal digit, so fuel n suffices for n itself. -/
def natDigitsGoF : Nat → Nat → List Char → List Char
  | 0, n, acc => digitCh n :: acc
  | fuel + 1, n, acc =>
    if n < 10 then digitCh n :: acc
    else natDigitsGoF fuel (n / 10) (digitCh (n % 10) :: acc)

/-- Decimal representation of a natural number as characters. -/
def natToChars (n : Nat) : List Char :=
  natDigitsGoF n n []

/-- Number of decimal digits of a natural number. -/
def numDigits (n : Nat) : Nat :=
  if h : n < 10 then 1 else numDigits (n / 10) + 1
termination_by n
decreasing_by exact Nat.div_lt_self (by omega) (by omega)

/-- Consume decimal digits from the input into an accumulated value,
stopping at the first non-digit. -/
def parseNatGo : List Char → Nat → Nat × List Char
  | [], acc => (acc, [])
  | c :: rest, acc =>
    if c.isDigit then parseNatGo rest (acc * 10 + (c.toNat - 48))
    else (acc, c :: rest)

/-- Parse a natural number: the first character must be a digit, then all
following digits are consumed. -/
def parseNatC (l : List Char) : Option (Nat × List Char) :=
  match l with
  | c :: _ => if c.isDigit then some (parseNatGo l 0) else none
  | [] => none

theorem escChars_cons (c : Char) (l : List Char) :
    escChars (c :: l) = escapeChar c ++ escChars l := rfl

theorem hexVal_hexCh {n : Nat} (h : n < 16) : hexVal (hexCh n) = some n := by
  revert n h; decide

theorem digitCh_lt_isDigit {n : Nat} (h : n < 10) : (digitCh n).isDigit = true := by
  revert n h; decide

theorem digitCh_toNat {n : Nat} (h : n < 10) : (digitCh n).toNat = 48 + n := by
  revert n h; decide

theorem digitCh_ne_dash {n : Nat} (h : n < 10) : digitCh n ≠ ('-' : Char) := by
  revert n h; decide

theorem natDigitsGo_lt {n : Nat} (h : n < 10) (acc : List Char) :
    natDigitsGo n acc = digitCh n :: acc := by
  rw [natDigitsGo]; simp [h]

theorem natDigitsGo_ge {n : Nat} (h : ¬ n < 10) (acc : List Char) :
    natDigitsGo n acc = natDigitsGo (n / 10) (digitCh (n % 10) :: acc) := by
  rw [natDigitsGo]; simp [h]

theorem natDigitsGoF_eq (fuel : Nat) :
    ∀ (n : Nat) (acc : List Char), n ≤ fuel →
      natDigitsGoF fuel n acc = natDigitsGo n acc := by
  induction fuel with
  | zero =>
    intro n acc h
    have hn : n = 0 := by omega
    subst hn
    rw [natDigitsGoF, natDigitsGo_lt (by omega)]
  | succ fuel ih =>
    intro n acc h
    rw [natDigitsGoF]
    by_cases hn : n < 10
    · rw [if_pos hn, natDigitsGo_lt hn]
    · rw [if_neg hn, natDigitsGo_ge hn, ih (n / 10) _ (by omega)]

theorem natToChars_eq (n : Nat) : natToChars n = natDigitsGo n [] := by
  rw [natToChars, natDigitsGoF_eq n n [] (Nat.le_refl n)]

theorem numDigits_lt {n : Nat} (h : n < 10) : numDigits n = 1 := by
  rw [numDigits]; simp [h]

theorem numDigits_ge {n : Nat} (h : ¬ n < 10) : numDigits n = numDigits (n / 10) + 1 := by
  rw [numDigits]; simp [h]

theorem natDigitsGo_acc (n : Nat) (acc : List Char) :
    natDigitsGo n acc = natDigitsGo n [] ++ acc := by
  induction n using Nat.strong_induction_on generalizing acc with
  | _ n ih =>
    by_cases h : n < 10
    · rw [natDigitsGo_lt h, natDigitsGo_lt h]; simp
    · rw [natDigitsGo_ge h, natDigitsGo_ge h,
          ih (n / 10) (Nat.div_lt_self (by omega) (by omega)) (digitCh (n % 10) :: acc),
          ih (n / 10) (Nat.div_lt_self (by omega) (by omega)) [digitCh (n % 10)]]
      simp

theorem natDigitsGo_mem (n : Nat) (acc : List Char) (c : Char)
    (hc : c ∈ natDigitsGo n acc) : c ∈ acc ∨ ∃ d, d < 10 ∧ c = digitCh d := by
  induction n using Nat.strong_induction_on generalizing acc with
  | _ n ih =>
    by_cases h : n < 10
    · rw [natDigitsGo_lt h, List.mem_cons] at hc
      rcases hc with hc | hc
      · exact Or.inr ⟨n, h, hc⟩
      · exact Or.inl hc
    · rw [natDigitsGo_ge h] at hc
      rcases ih (n / 10) (Nat.div_lt_self (by omega) (by omega)) _ hc with h1 | h1
      · rw [List.mem_cons] at h1
        rcases h1 with h1 | h1
        · exact Or.inr ⟨n % 10, Nat.mod_lt _ (by omega), h1⟩
        · exact Or.inl h1
      · exact Or.inr h1

theorem natToChars_ne_nil (n : Nat) : natToChars n ≠ [] := by
  rw [natToChars_eq]
  by_cases h : n < 10
  · rw [natDigitsGo_lt h]; simp
  · rw [natDigitsGo_ge h, natDigitsGo_acc]; simp

theorem natToChars_digits (n : Nat) (c : Char) (hc : c ∈ natToChars n) :
    ∃ d, d < 10 ∧ c = digitCh d := by
  rw [natToChars_eq] at hc
  rcases natDigitsGo_mem n [] c hc with h | h
  · simp at h
  · exact h

theorem parseNatGo_stop (a : Nat) (rest : List Char)
    (h : ∀ c rest2, rest = c :: rest2 → c.isDigit = false) :
    parseNatGo rest a = (a, rest) := by
  cases rest with
  | nil => rfl
  | cons c r => rw [parseNatGo]; simp [h c r rfl]

theorem parseNatGo_digits (n : Nat) :
    ∀ (a : Nat) (rest : List Char),
      parseNatGo (natDigitsGo n [] ++ rest) a = parseNatGo rest (a * 10 ^ numDigits n + n) := by
  induction n using Nat.strong_induction_on with
  | _ n ih =>
    intro a rest
    by_cases h : n < 10
    · rw [natDigitsGo_lt h, numDigits_lt h]
      simp only [List.cons_append]
      rw [parseNatGo]
      simp [digitCh_lt_isDigit h, digitCh_toNat h]
    · rw [natDigitsGo_ge h, numDigits_ge h, natDigitsGo_acc, List.append_assoc,
        List.cons_append, List.nil_append,
        ih (n / 10) (Nat.div_lt_self (by omega) (by omega))]
      rw [parseNatGo]
      have h10 : n % 10 < 10 := Nat.mod_lt _ (by omega)
      simp only [digitCh_lt_isDigit h10, if_true, digitCh_toNat h10]
      congr 1
      have h48 : 48 + n % 10 - 48 = n % 10 := by omega
      rw [h48, pow_succ]
      have hdm : 10 * (n / 10) + n % 10 = n := Nat.div_add_mod n 10
      ring_nf
      omega

theorem parseNatC_natToChars (n : Nat) (rest : List Char)
    (h : ∀ c rest2, rest = c :: rest2 → c.isDigit = false) :
    parseNatC (natToChars n ++ rest) = some (n, rest) := by
  have hne := natToChars_ne_nil n
  rcases he : natToChars n with _ | ⟨c, l⟩
  · exact absurd he hne
  · have hcmem : c ∈ natToChars n := by rw [he]; simp
    rcases natToChars_digits n c hcmem with ⟨d, hd, hcd⟩
    have hdig : c.isDigit = true := by rw [hcd]; exact digitCh_lt_isDigit hd
    have hgo := parseNatGo_digits n 0 rest
    rw [natToChars_eq] at he
    rw [he] at hgo
    simp only [Nat.zero_mul, Nat.zero_add] at hgo
    rw [parseNatGo_stop n rest h] at hgo
    simp only [List.cons_append] at hgo ⊢
    rw [parseNatC, hdig]
    simp only [if_true]
    rw [hgo]

theorem parseStrBodyF_quote (fuel : Nat) (rest : List Char) :
    parseStrBodyF (fuel + 1) (('"' : Char) :: rest) = some ([], rest) := by
  rw [parseStrBodyF]; simp

theorem parseStrBodyF_plain {c : Char} (h1 : c ≠ ('"' : Char)) (h2 : c ≠ ('\\' : Char))
    (fuel : Nat) (rest : List Char) :
    parseStrBodyF (fuel + 1) (c :: rest) =
      (parseStrBodyF fuel rest).map (fun p => (c :: p.1, p.2)) := by
  rw [parseStrBodyF]; simp [h1, h2]

theorem parseStrBodyF_esc {rest : List Char} {d : Char} {r2 : List Char}
    (h : parseEsc rest = some (d, r2)) (fuel : Nat) :
    parseStrBodyF (fuel + 1) (('\\' : Char) :: rest) =
      (parseStrBodyF fuel r2).map (fun p => (d :: p.1, p.2)) := by
  rw [parseStrBodyF]
  have hne : ¬ (('\\' : Char) = ('"' : Char)) := by decide
  simp [hne, h]

theorem parseEsc_u {m : Nat} (hm : m < 32) (rest : List Char) :
    parseEsc (('u' : Char) :: ('0' : Char) :: ('0' : Char) ::
        hexCh (m / 16) :: hexCh (m % 16) :: rest) = some (Char.ofNat m, rest) := by
  have hd : m / 16 < 16 := by omega
  have hm16 : m % 16 < 16 := by omega
  rw [parseEsc]
  simp only [reduceIte]
  rw [parseU]
  have h0 : hexVal ('0' : Char) = some 0 := by decide
  rw [h0, hexVal_hexCh hd, hexVal_hexCh hm16]
  have harith : m / 16 * 16 + m % 16 = m := by omega
  simp [harith]

theorem parseStrBodyF_escChars (l : List Char) :
    ∀ (fuel : Nat) (rest : List Char), l.length < fuel →
      parseStrBodyF fuel (escChars l ++ ('"' : Char) :: rest) = some (l, rest) := by
  induction l with
  | nil =>
    intro fuel rest hf
    match fuel with
    | f + 1 => simpa using parseStrBodyF_quote f rest
  | cons c l ih =>
    intro fuel rest hf
    match fuel with
    | f + 1 =>
      have hlf : l.length < f := by simp at hf; omega
      rw [escChars_cons, List.append_assoc]
      by_cases hq : c = ('"' : Char)
      · subst hq
        have he : escapeChar ('"' : Char) = [('\\' : Char), ('"' : Char)] := by decide
        rw [he]
        have hesc : parseEsc (('"' : Char) :: (escChars l ++ ('"' : Char) :: rest)) =
            some (('"' : Char), escChars l ++ ('"' : Char) :: rest) := by
          rw [parseEsc]; simp
        simp only [List.cons_append, List.nil_append]
        rw [parseStrBodyF_esc hesc f, ih f rest hlf]
        rfl
      · by_cases hb : c = ('\\' : Char)
        · subst hb
          have he : escapeChar ('\\' : Char) = [('\\' : Char), ('\\' : Char)] := by decide
          rw [he]
          have hesc : parseEsc (('\\' : Char) :: (escChars l ++ ('"' : Char) :: rest)) =
              some (('\\' : Char), escChars l ++ ('"' : Char) :: rest) := by
            rw [parseEsc]; simp
          simp only [List.cons_append, List.nil_append]
          rw [parseStrBodyF_esc hesc f, ih f rest hlf]
          rfl
        · by_cases h32 : c.toNat < 32
          · by_cases hc8 : c = ('\x08' : Char)
            · subst hc8
              have he : escapeChar ('\x08' : Char) = [('\\' : Char), ('b' : Char)] := by decide
              rw [he]
              have hesc : parseEsc (('b' : Char) :: (escChars l ++ ('"' : Char) :: rest)) =
                  some (('\x08' : Char), escChars l ++ ('"' : Char) :: rest) := by
                rw [parseEsc]; simp
              simp only [List.cons_append, List.nil_append]
              rw [parseStrBodyF_esc hesc f, ih f rest hlf]
              rfl
            · by_cases hc9 : c = ('\t' : Char)
              · subst hc9
                have he : escapeChar ('\t' : Char) = [('\\' : Char), ('t' : Char)] := by decide
                rw [he]
                have hesc : parseEsc (('t' : Char) :: (escChars l ++ ('"' : Char) :: rest)) =
                    some (('\t' : Char), escChars l ++ ('"' : Char) :: rest) := by
                  rw [parseEsc]; simp
                simp only [List.cons_append, List.nil_append]
                rw [parseStrBodyF_esc hesc f, ih f rest hlf]
                rfl
              · by_cases hcn : c = ('\n' : Char)
                · subst hcn
                  have he : escapeChar ('\n' : Char) = [('\\' : Char), ('n' : Char)] := by
                    decide
                  rw [he]
                  have hesc : parseEsc (('n' : Char) :: (escChars l ++ ('"' : Char) :: rest)) =
                      some (('\n' : Char), escChars l ++ ('"' : Char) :: rest) := by
                    rw [parseEsc]; simp
                  simp only [List.cons_append, List.nil_append]
                  rw [parseStrBodyF_esc hesc f, ih f rest hlf]
                  rfl
                · by_cases hcf : c = ('\x0c' : Char)
                  · subst hcf
                    have he : escapeChar ('\x0c' : Char) = [('\\' : Char), ('f' : Char)] := by
                      decide
                    rw [he]
                    have hesc : parseEsc (('f' : Char) ::
                        (escChars l ++ ('"' : Char) :: rest)) =
                        some (('\x0c' : Char), escChars l ++ ('"' : Char) :: rest) := by
                      rw [parseEsc]; simp
                    simp only [List.cons_append, List.nil_append]
                    rw [parseStrBodyF_esc hesc f, ih f rest hlf]
                    rfl
                  · by_cases hcr : c = ('\r' : Char)
                    · subst hcr
                      have he : escapeChar ('\r' : Char) = [('\\' : Char), ('r' : Char)] := by
                        decide
                      rw [he]
                      have hesc : parseEsc (('r' : Char) ::
                          (escChars l ++ ('"' : Char) :: rest)) =
                          some (('\r' : Char), escChars l ++ ('"' : Char) :: rest) := by
                        rw [parseEsc]; simp
                      simp only [List.cons_append, List.nil_append]
                      rw [parseStrBodyF_esc hesc f, ih f rest hlf]
                      rfl
                    · have he : escapeChar c = [('\\' : Char), ('u' : Char), ('0' : Char),
                          ('0' : Char), hexCh (c.toNat / 16), hexCh (c.toNat % 16)] := by
                        rw [escapeChar]
                        simp [hq, hb, h32, hc8, hc9, hcn, hcf, hcr]
                      rw [he]
                      have hesc := parseEsc_u h32 (escChars l ++ ('"' : Char) :: rest)
                      simp only [List.cons_append, List.nil_append]
                      rw [parseStrBodyF_esc hesc f, ih f rest hlf, Char.ofNat_toNat]
                      rfl
          · have he : escapeChar c = [c] := by
              rw [escapeChar]; simp [hq, hb, h32]
            rw [he]
            simp only [List.cons_append, List.nil_append]
            rw [parseStrBodyF_plain hq hb f, ih f rest hlf]
            rfl

theorem escapeChar_length_pos (c : Char) : 1 ≤ (escapeChar c).length := by
  rw [escapeChar]
  split_ifs <;> simp

theorem escChars_length_ge (l : List Char) : l.length ≤ (escChars l).length := by
  induction l with
  | nil => simp [escChars]
  | cons c l ih =>
    rw [escChars_cons]
    simp only [List.length_append, List.length_cons]
    have := escapeChar_length_pos c
    omega

theorem parseStrBody_escChars (l : List Char) (rest : List Char) :
    parseStrBody (escChars l ++ ('"' : Char) :: rest) = some (l, rest) := by
  rw [parseStrBody]
  apply parseStrBodyF_escChars
  have h := escChars_length_ge l
  simp only [List.length_append, List.length_cons]
  omega


/-- Consume an expected literal sequence of characters, returning the rest. -/
def expectChars : List Char → List Char → Option (List Char)
  | [], input => some input
  | _ :: _, [] => none
  | e :: es, c :: cs => if c = e then expectChars es cs else none

theorem expectChars_append (p rest : List Char) :
    expectChars p (p ++ rest) = some rest := by
  induction p with
  | nil => rfl
  | cons c cs ih => rw [List.cons_append, expectChars]; simp [ih]

/-- Parse a JSON string literal: opening quote, body, closing quote. -/
def parseStrLit (l : List Char) : Option (List Char × List Char) :=
  match l with
  | c :: r => if c = ('"' : Char) then parseStrBody r else none
  | [] => none

theorem parseStrLit_strLit (s rest : List Char) :
    parseStrLit (strLit s ++ rest) = some (s, rest) := by
  rw [strLit]
  simp only [List.cons_append, List.append_assoc, List.singleton_append]
  rw [parseStrLit]
  simp only [if_pos rfl]
  exact parseStrBody_escChars s rest

/-- Leading characters of a serialized frame object: an opening brace and
the id key. -/
def keyHead : List Char := ('\x7b' : Char) :: ("\"id\":").data

/-- Separator before the dataUrl field. -/
def keyUrl : List Char := (",\"dataUrl\":").data

/-- Separator before the timestamp field. -/
def keyTs : List Char := (",\"timestamp\":").data

/-- Serialization of one frame record, exactly as JSON.stringify emits it
for an object created with fields id, dataUrl, timestamp in that order. -/
def serFrameC (f : Frame) : List Char :=
  keyHead ++ strLit f.id.data ++ keyUrl ++ strLit f.dataUrl.data ++ keyTs ++
    natToChars f.timestamp ++ [('\x7d' : Char)]

/-- Parse one serialized frame record. -/
def parseFrameC (l : List Char) : Option (Frame × List Char) := do
  let l1 ← expectChars keyHead l
  let p1 ← parseStrLit l1
  let l3 ← expectChars keyUrl p1.2
  let p2 ← parseStrLit l3
  let l6 ← expectChars keyTs p2.2
  let p3 ← parseNatC l6
  let l8 ← expectChars [('\x7d' : Char)] p3.2
  pure ({ id := String.mk p1.1, dataUrl := String.mk p2.1, timestamp := p3.1 }, l8)

theorem parseFrameC_serFrameC (f : Frame) (rest : List Char) :
    parseFrameC (serFrameC f ++ rest) = some (f, rest) := by
  obtain ⟨⟨idc⟩, ⟨urlc⟩, ts⟩ := f
  rw [serFrameC, parseFrameC]
  simp only [List.append_assoc]
  rw [expectChars_append]
  simp only [Option.bind_eq_bind, Option.some_bind]
  rw [parseStrLit_strLit]
  simp only [Option.some_bind]
  rw [expectChars_append]
  simp only [Option.some_bind]
  rw [parseStrLit_strLit]
  simp only [Option.some_bind]
  rw [expectChars_append]
  simp only [Option.some_bind]
  have hstop : ∀ c rest2, ([('\x7d' : Char)] : List Char) ++ rest = c :: rest2 →
      c.isDigit = false := by
    intro c rest2 hc
    simp only [List.singleton_append, List.cons.injEq] at hc
    rw [← hc.1]
    decide
  rw [parseNatC_natToChars ts _ hstop]
  simp only [Option.some_bind]
  rw [expectChars_append]
  rfl

/-- Serialization of the comma-separated remainder of a frame array,
after the first element. -/
def serFramesTail : List Frame → List Char
  | [] => [(']' : Char)]
  | f :: fs => (',' : Char) :: serFrameC f ++ serFramesTail fs

/-- Serialization of a frame array, exactly as JSON.stringify emits it. -/
def serFramesC : List Frame → List Char
  | [] => [('[' : Char), (']' : Char)]
  | f :: fs => ('[' : Char) :: serFrameC f ++ serFramesTail fs

/-- Parse the remainder of a frame array after the first element: either a
closing bracket or a comma followed by another element.  The fuel bounds
recursion depth; any fuel larger than the element count suffices. -/
def parseFramesTail (fuel : Nat) (l : List Char) : Option (List Frame × List Char) :=
  match fuel with
  | 0 => none
  | fuel2 + 1 =>
    match l with
    | [] => none
    | c :: rest =>
      if c = (']' : Char) then some ([], rest)
      else if c = (',' : Char) then
        match parseFrameC rest with
        | none => none
        | some (f, l2) =>
          match parseFramesTail fuel2 l2 with
          | none => none
          | some (fs, l3) => some (f :: fs, l3)
      else none

/-- Parse a full serialized frame array, requiring the input to be fully
consumed (as JSON.parse does). -/
def parseFramesC (fuel : Nat) (l : List Char) : Option (List Frame) :=
  match l with
  | [] => none
  | c :: rest =>
    if c = ('[' : Char) then
      match rest with
      | [] => none
      | c2 :: rest2 =>
        if c2 = (']' : Char) then (if rest2 = [] then some [] else none)
        else
          match parseFrameC rest with
          | none => none
          | some (f, l2) =>
            match parseFramesTail fuel l2 with
            | none => none
            | some (fs, l3) => if l3 = [] then some (f :: fs) else none
    else none

theorem parseFramesTail_ser (fs : List Frame) :
    ∀ (fuel : Nat) (rest : List Char), fs.length < fuel →
      parseFramesTail fuel (serFramesTail fs ++ rest) = some (fs, rest) := by
  induction fs with
  | nil =>
    intro fuel rest hf
    match fuel with
    | fuel2 + 1 =>
      rw [serFramesTail, parseFramesTail.eq_def]
      simp
  | cons f fs ih =>
    intro fuel rest hf
    match fuel with
    | fuel2 + 1 =>
      rw [serFramesTail, parseFramesTail.eq_def]
      simp only [List.cons_append, List.append_assoc]
      have hc1 : ¬ ((',' : Char) = (']' : Char)) := by decide
      simp only [hc1, if_false, if_pos rfl]
      rw [parseFrameC_serFrameC]
      have hlen : fs.length < fuel2 := by simp at hf; omega
      simp [ih fuel2 rest hlen]

theorem expectChars_some {p l r : List Char} (h : expectChars p l = some r) :
    l = p ++ r := by
  induction p generalizing l with
  | nil =>
    rw [expectChars] at h
    cases h
    rfl
  | cons e es ih =>
    cases l with
    | nil => rw [expectChars] at h; cases h
    | cons c cs =>
      rw [expectChars] at h
      by_cases hc : c = e
      · rw [if_pos hc] at h
        rw [List.cons_append, hc, ih h]
      · rw [if_neg hc] at h; cases h

theorem parseFrameC_head {l : List Char} {x : Frame × List Char}
    (h : parseFrameC l = some x) : ∃ t, l = ('\x7b' : Char) :: t := by
  rcases he : expectChars keyHead l with _ | l1
  · rw [parseFrameC, he] at h
    simp at h
  · refine ⟨("\"id\":").data ++ l1, ?_⟩
    rw [expectChars_some he, keyHead]
    rfl

theorem parseFramesC_ser (fs : List Frame) (fuel : Nat) (hf : fs.length < fuel) :
    parseFramesC fuel (serFramesC fs) = some fs := by
  cases fs with
  | nil => rw [serFramesC, parseFramesC.eq_def]; simp
  | cons f fs =>
    have hrt := parseFrameC_serFrameC f (serFramesTail fs)
    obtain ⟨t, ht⟩ := parseFrameC_head hrt
    rw [serFramesC, parseFramesC.eq_def]
    simp only [List.cons_append]
    rw [ht]
    simp only [if_pos rfl]
    have hb : ¬ (('\x7b' : Char) = (']' : Char)) := by decide
    simp only [hb, if_false]
    rw [← ht, hrt]
    have hlen : fs.length < fuel := by simp at hf; omega
    have htail := parseFramesTail_ser fs fuel [] hlen
    rw [List.append_nil] at htail
    simp [htail]

theorem serFramesTail_length (fs : List Frame) :
    fs.length + 1 ≤ (serFramesTail fs).length := by
  induction fs with
  | nil => simp [serFramesTail]
  | cons f fs ih =>
    rw [serFramesTail]
    simp only [List.cons_append, List.length_cons, List.length_append, List.length_cons]
    omega

theorem serFramesC_length (fs : List Frame) : fs.length ≤ (serFramesC fs).length := by
  cases fs with
  | nil => simp [serFramesC]
  | cons f fs =>
    rw [serFramesC]
    have := serFramesTail_length fs
    simp only [List.cons_append, List.length_cons, List.length_append]
    omega

theorem serFramesC_ne_nil (fs : List Frame) : serFramesC fs ≠ [] := by
  cases fs with
  | nil => simp [serFramesC]
  | cons f fs => rw [serFramesC]; simp

/-- Error conditions of the store operations: a JSON.parse failure on a
corrupt record, or a localStorage.setItem quota failure. -/
inductive JsError where
  | parseError : JsError
  | quotaExceeded : JsError
deriving DecidableEq, Repr

/-- Model of JSON.stringify applied to the frame list. -/
def serializeFrames (fs : List Frame) : String :=
  String.mk (serFramesC fs)

/-- Model of JSON.parse applied to the stored frame record: parses the
exact serialization format, and fails (as JSON.parse throws a
SyntaxError) on anything it cannot parse.  The fuel passed to the list
parser is one more than the input length, which is always sufficient
because every parsed element consumes at least one character. -/
def jsonParseFrames (s : String) : Except JsError (List Frame) :=
  match parseFramesC (s.data.length + 1) s.data with
  | some fs => Except.ok fs
  | none => Except.error JsError.parseError

theorem jsonParseFrames_serializeFrames (fs : List Frame) :
    jsonParseFrames (serializeFrames fs) = Except.ok fs := by
  rw [jsonParseFrames, serializeFrames]
  have hlen : fs.length < (serFramesC fs).length + 1 :=
    Nat.lt_succ_of_le (serFramesC_length fs)
  rw [parseFramesC_ser fs ((serFramesC fs).length + 1) hlen]

/-- State of the browser storage and event bus as the store code sees it:
the persisted record under the onionmotion_frames key (absent when never
written), a capacity bound modelling the storage quota, and the list of
framesUpdated events dispatched so far, each carrying the full frame list
passed as the event detail. -/
structure StoreState where
  storage : Option String
  quota : Nat
  events : List (List Frame)
deriving DecidableEq, Repr

/-- Model of FrameStore.getFrames: localStorage.getItem returns the record
or null; a falsy result (null or the empty string) yields an empty list,
and otherwise the value is passed to JSON.parse, whose failure on a corrupt
record propagates (the source wraps it in no try/catch). -/
def getFrames (storage : Option String) : Except JsError (List Frame) :=
  match storage with
  | none => Except.ok []
  | some s => if s = ("" : String) then Except.ok [] else jsonParseFrames s

/-- Model of localStorage.setItem: an atomic write that either stores the
value whole or throws a quota error leaving the record unchanged. -/
def setItem (st : StoreState) (value : String) : Except JsError StoreState :=
  if value.length ≤ st.quota then
    Except.ok { st with storage := some value }
  else
    Except.error JsError.quotaExceeded

/-- Model of FrameStore.saveFrames: serialize the full list, write it with
setItem, then dispatch a framesUpdated event carrying the list.  A setItem
failure propagates before the event is dispatched. -/
def saveFrames (st : StoreState) (frames : List Frame) : Except JsError StoreState :=
  match setItem st (serializeFrames frames) with
  | Except.ok st2 => Except.ok { st2 with events := st2.events ++ [frames] }
  | Except.error e => Except.error e

/-- The id string FrameStore.addFrame builds from the current time and the
random base-36 suffix drawn from Math.random. -/
def mkFrameId (now : Nat) (rand : String) : String :=
  ("frame-" : String) ++ String.mk (natToChars now) ++ ("-" : String) ++ rand

/-- Model of FrameStore.addFrame: read the current list, append a frame
with the generated id, the given payload and the current timestamp, and
save.  The now and rand arguments are the outcomes of the Date.now and
Math.random calls the source makes. -/
def addFrame (st : StoreState) (now : Nat) (rand : String) (dataUrl : String) :
    Except JsError (StoreState × Frame) :=
  match getFrames st.storage with
  | Except.error e => Except.error e
  | Except.ok frames =>
    let newFrame : Frame := { id := mkFrameId now rand, dataUrl := dataUrl, timestamp := now }
    match saveFrames st (frames ++ [newFrame]) with
    | Except.ok st2 => Except.ok (st2, newFrame)
    | Except.error e => Except.error e

/-- Model of FrameStore.deleteFrame: filter out the frame whose id matches
and save the result, whether or not anything was removed. -/
def deleteFrame (st : StoreState) (id : String) : Except JsError StoreState :=
  match getFrames st.storage with
  | Except.error e => Except.error e
  | Except.ok frames => saveFrames st (frames.filter (fun f => f.id ≠ id))

theorem getFrames_serializeFrames (fs : List Frame) :
    getFrames (some (serializeFrames fs)) = Except.ok fs := by
  rw [getFrames]
  have hne : serializeFrames fs ≠ ("" : String) := by
    rw [serializeFrames]
    intro hc
    exact serFramesC_ne_nil fs (congrArg String.data hc)
  rw [if_neg hne, jsonParseFrames_serializeFrames]

theorem natToChars_no_dash (n : Nat) : ('-' : Char) ∉ natToChars n := by
  intro hmem
  rcases natToChars_digits n ('-' : Char) hmem with ⟨d, hd, hcd⟩
  exact digitCh_ne_dash hd hcd.symm

theorem append_dash_inj {x x' y y' : List Char}
    (hx : ('-' : Char) ∉ x) (hx' : ('-' : Char) ∉ x')
    (h : x ++ ('-' : Char) :: y = x' ++ ('-' : Char) :: y') : x = x' ∧ y = y' := by
  induction x generalizing x' with
  | nil =>
    cases x' with
    | nil => simp at h; exact ⟨rfl, h⟩
    | cons c cs =>
      simp only [List.nil_append, List.cons_append, List.cons.injEq] at h
      exact absurd (by rw [h.1]; exact List.mem_cons_self _ _) hx'
  | cons c cs ih =>
    cases x' with
    | nil =>
      simp only [List.nil_append, List.cons_append, List.cons.injEq] at h
      exact absurd (by rw [← h.1]; exact List.mem_cons_self _ _) hx
    | cons c' cs' =>
      simp only [List.cons_append, List.cons.injEq] at h
      have hcs : ('-' : Char) ∉ cs := fun hm => hx (List.mem_cons_of_mem _ hm)
      have hcs' : ('-' : Char) ∉ cs' := fun hm => hx' (List.mem_cons_of_mem _ hm)
      rcases ih hcs hcs' h.2 with ⟨h1, h2⟩
      exact ⟨by rw [h.1, h1], h2⟩

theorem mkFrameId_inj_rand {n n' : Nat} {r r' : String}
    (h : mkFrameId n r = mkFrameId n' r') : r = r' := by
  have hd : ("frame-" : String).data ++ (natToChars n ++ ('-' : Char) :: r.data) =
      ("frame-" : String).data ++ (natToChars n' ++ ('-' : Char) :: r'.data) := by
    have := congrArg String.data h
    simpa [mkFrameId, List.append_assoc] using this
  have h2 := List.append_cancel_left hd
  rcases append_dash_inj (natToChars_no_dash n) (natToChars_no_dash n') h2 with ⟨h3, h4⟩
  cases r; cases r'
  exact congrArg String.mk h4

/-- Model of the splice start-index normalization of Array.prototype.splice:
a negative start counts back from the end (clamped at zero), a nonnegative
start is clamped to the length. -/
def jsSpliceStart (len : Nat) (start : Int) : Nat :=
  if start < 0 then ((len : Int) + start).toNat
  else min start.toNat len

/-- Model of frames.splice(fromIndex, 1): removes the element at the
normalized position if there is one (returning it), and otherwise removes
nothing and yields undefined, modelled as none. -/
def spliceRemove1 (l : List Frame) (start : Int) : Option Frame × List Frame :=
  let s := jsSpliceStart l.length start
  match l.get? s with
  | some a => (some a, l.take s ++ l.drop (s + 1))
  | none => (none, l)

/-- Model of frames.splice(toIndex, 0, removed) on the array left by the
first splice: inserts the removed value - possibly the undefined produced
by an out-of-range fromIndex - at the normalized position.  Elements of the
resulting array are Option Frame because the array can now hold undefined. -/
def spliceInsert1 (l : List (Option Frame)) (start : Int) (a : Option Frame) :
    List (Option Frame) :=
  let s := jsSpliceStart l.length start
  l.take s ++ a :: l.drop s

/-- Model of FrameStore.reorderFrames' effect on the frames array: splice
out the element at fromIndex, then splice the removed value in at toIndex.
The source performs no index validation, and the resulting array is what
saveFrames then persists (an undefined entry serializing as null). -/
def reorderFrames (l : List Frame) (fromIndex toIndex : Int) : List (Option Frame) :=
  let r := spliceRemove1 l fromIndex
  spliceInsert1 (r.2.map Option.some) toIndex r.1

theorem insertIdx_eq_take_cons_drop {α : Type} (n : Nat) (a : α) (l : List α)
    (h : n ≤ l.length) : l.insertIdx n a = l.take n ++ a :: l.drop n := by
  induction n generalizing l with
  | zero => simp [List.insertIdx_zero]
  | succ n ih =>
    cases l with
    | nil => simp at h
    | cons c cs =>
      rw [List.insertIdx_succ_cons, ih cs (by simpa using h)]
      simp

theorem reorderFrames_valid (l : List Frame) (f t : Nat)
    (hf : f < l.length) (ht : t < l.length) :
    reorderFrames l (f : Int) (t : Int) =
      ((l.eraseIdx f).insertIdx t (l.get ⟨f, hf⟩)).map Option.some := by
  have hsf : jsSpliceStart l.length (f : Int) = f := by
    rw [jsSpliceStart]
    have : ¬ ((f : Int) < 0) := by omega
    rw [if_neg this]
    simp [Int.toNat_ofNat, Nat.min_eq_left (Nat.le_of_lt hf)]
  have hst : jsSpliceStart (l.length - 1) (t : Int) = t := by
    rw [jsSpliceStart]
    have hneg : ¬ ((t : Int) < 0) := by omega
    rw [if_neg hneg]
    have hle : t ≤ l.length - 1 := by omega
    simp [Int.toNat_ofNat, Nat.min_eq_left hle]
  rw [reorderFrames, spliceRemove1]
  simp only [hsf]
  rw [List.get?_eq_get hf]
  simp only
  rw [spliceInsert1]
  have hlen : ((l.take f ++ l.drop (f + 1)).map Option.some).length = l.length - 1 := by
    simp only [List.length_map, List.length_append, List.length_take, List.length_drop]
    omega
  rw [hlen, hst]
  have herase : l.eraseIdx f = l.take f ++ l.drop (f + 1) :=
    List.eraseIdx_eq_take_drop_succ l f
  have htle : t ≤ (l.eraseIdx f).length := by
    rw [herase]
    simp only [List.length_append, List.length_take, List.length_drop]
    omega
  rw [insertIdx_eq_take_cons_drop t _ _ htle, herase]
  simp [List.map_take, List.map_drop]

/-- State of VideoPlayerModule together with the timer environment: the
module fields frames, currentIndex, fps, isPlaying, loop and intervalId,
plus the set of interval timers currently live in the browser (liveTimers)
and the id the next setInterval call will allocate (setInterval ids are
positive, so allocation starts at 1 and intervalId none models null). -/
structure PlayerState where
  frames : List Frame
  currentIndex : Nat
  fps : Nat
  isPlaying : Bool
  loop : Bool
  intervalId : Option Nat
  liveTimers : List Nat
  nextTimerId : Nat
deriving DecidableEq, Repr

/-- Model of VideoPlayerModule.play: returns unchanged on an empty frame
list; otherwise sets isPlaying and starts a fresh interval timer, storing
its handle in intervalId.  A previously stored handle is overwritten
without being cleared, exactly as in the source. -/
def play (s : PlayerState) : PlayerState :=
  if s.frames.length = 0 then s
  else
    { s with
      isPlaying := true
      intervalId := some s.nextTimerId
      liveTimers := s.liveTimers ++ [s.nextTimerId]
      nextTimerId := s.nextTimerId + 1 }

/-- Model of VideoPlayerModule.pause: clears isPlaying and, if a handle is
tracked, cancels that interval and nulls the handle. -/
def pause (s : PlayerState) : PlayerState :=
  let s1 := { s with isPlaying := false }
  match s1.intervalId with
  | some id =>
    { s1 with
      liveTimers := s1.liveTimers.filter (fun x => x != id)
      intervalId := none }
  | none => s1

/-- Model of one firing of the interval callback installed by play:
increment currentIndex; if it reached the length, wrap to 0 when looping,
otherwise clamp to length-1 and pause. -/
def tick (s : PlayerState) : PlayerState :=
  let i := s.currentIndex + 1
  if i ≥ s.frames.length then
    if s.loop then { s with currentIndex := 0 }
    else pause { s with currentIndex := s.frames.length - 1 }
  else { s with currentIndex := i }

/-- Model of VideoPlayerModule.togglePlay. -/
def togglePlay (s : PlayerState) : PlayerState :=
  if s.isPlaying then pause s else play s

/-- Model of the seek performed by both the progress-slider input handler
and the timeline click handler: pause, then assign the parsed index to
currentIndex verbatim, then re-render (rendering does not change state). -/
def seek (s : PlayerState) (v : Nat) : PlayerState :=
  { pause s with currentIndex := v }

/-- Single-tracked-timer invariant: the live timers are exactly the one
tracked handle (none when the handle is null), and isPlaying mirrors
whether a handle is tracked. -/
def TimerInv (s : PlayerState) : Prop :=
  s.liveTimers = s.intervalId.toList ∧ s.isPlaying = s.intervalId.isSome

/-- An exported artifact: its suggested download filename and payload. -/
structure Artifact where
  filename : String
  payload : String
deriving DecidableEq, Repr

/-- Model of String(n).padStart(3, zero): left-pad the decimal digits to a
minimum width of three. -/
def padStart3 (s : String) : String :=
  if 3 ≤ s.length then s else String.mk (List.replicate (3 - s.length) ('0' : Char)) ++ s

/-- Model of VideoPlayerModule.downloadFramesAsZip: one download anchor per
frame, in sequence order, named frame-NNN.png with the 1-based index
zero-padded to three digits, each carrying the frame's dataUrl. -/
def downloadFramesAsZip (frames : List Frame) : List Artifact :=
  frames.enum.map (fun p =>
    { filename := ("frame-" : String) ++ padStart3 (String.mk (natToChars (p.1 + 1)))
        ++ (".png" : String),
      payload := p.2.dataUrl })

/-- Model of VideoPlayerModule.downloadAsGif: when the GIF encoder library
is absent, fall through to downloadFramesAsZip; otherwise produce the
single GIF artifact named onionmotion-now.gif (the encoded bytes come from
the external gif.js encoder and are opaque here). -/
def downloadAsGif (gifAvailable : Bool) (now : Nat) (frames : List Frame) : List Artifact :=
  if gifAvailable then
    [{ filename := ("onionmotion-" : String) ++ String.mk (natToChars now) ++ (".gif" : String),
       payload := ("gif" : String) }]
  else downloadFramesAsZip frames

/-- Model of VideoPlayerModule.downloadAsWebM: when MediaRecorder (or any
step of the recording pipeline) throws, the catch block only alerts and
restores the button - no artifact is produced and no fallback is tried;
otherwise the single WebM artifact named onionmotion-now.webm is produced. -/
def downloadAsWebM (recorderAvailable : Bool) (now : Nat) (frames : List Frame) :
    List Artifact :=
  if recorderAvailable then
    [{ filename := ("onionmotion-" : String) ++ String.mk (natToChars now) ++ (".webm" : String),
       payload := ("webm" : String) }]
  else []

/-- Model of VideoPlayerModule.downloadVideo: read the format selector
(defaulting to gif when the element is absent) and dispatch. -/
def downloadVideo (format : Option String) (gifAvailable recorderAvailable : Bool)
    (now : Nat) (frames : List Frame) : List Artifact :=
  if format.getD ("gif" : String) = ("gif" : String) then downloadAsGif gifAvailable now frames
  else downloadAsWebM recorderAvailable now frames

/-- Concrete frame fixture used by the concrete-state theorems. -/
def frA : Frame := { id := ("a" : String), dataUrl := ("u" : String), timestamp := 0 }

/-- Concrete frame fixture used by the concrete-state theorems. -/
def frB : Frame := { id := ("b" : String), dataUrl := ("v" : String), timestamp := 1 }

/-- Concrete frame fixture used by the concrete-state theorems. -/
def frC : Frame := { id := ("c" : String), dataUrl := ("w" : String), timestamp := 2 }

/-- A freshly initialised player view on one frame, paused, no timer. -/
def playerP1 : PlayerState :=
  { frames := [frA], currentIndex := 0, fps := 12, isPlaying := false, loop := true,
    intervalId := none, liveTimers := [], nextTimerId := 1 }

/-- A paused player on three frames. -/
def playerP3 : PlayerState :=
  { frames := [frA, frB, frC], currentIndex := 0, fps := 10, isPlaying := false, loop := true,
    intervalId := none, liveTimers := [], nextTimerId := 1 }

/-- A playing player on three frames with its single live timer tracked. -/
def playerPlaying3 : PlayerState :=
  { frames := [frA, frB, frC], currentIndex := 1, fps := 10, isPlaying := true, loop := true,
    intervalId := some 1, liveTimers := [1], nextTimerId := 2 }

/-- C1: on each interval tick while playing with a non-empty frame list,
currentIndex is incremented by one; when the incremented index reaches the
length it wraps to 0 when looping, and otherwise is clamped to length-1
with the controller paused and the tracked timer cancelled. -/
theorem tick_playing_spec :
    ∀ (s : PlayerState), s.isPlaying = true → s.frames ≠ [] →
      ((s.currentIndex + 1 < s.frames.length →
          tick s = { s with currentIndex := s.currentIndex + 1 })
      ∧ (s.frames.length ≤ s.currentIndex + 1 → s.loop = true →
          tick s = { s with currentIndex := 0 })
      ∧ (s.frames.length ≤ s.currentIndex + 1 → s.loop = false →
          (tick s).currentIndex = s.frames.length - 1 ∧ (tick s).isPlaying = false ∧
          (tick s).intervalId = none ∧
          ∀ tid, s.intervalId = some tid →
            (tick s).liveTimers = s.liveTimers.filter (fun x => x != tid))) := by
  intro s hp hne
  refine ⟨?_, ?_, ?_⟩
  · intro hlt
    rw [tick]
    simp only [ge_iff_le]
    rw [if_neg (by omega)]
  · intro hge hloop
    rw [tick]
    simp only [ge_iff_le]
    rw [if_pos (by omega), if_pos hloop]
  · intro hge hloop
    rw [tick]
    simp only [ge_iff_le]
    rw [if_pos (by omega), if_neg (by simp [hloop])]
    rw [pause]
    cases hid : s.intervalId with
    | none =>
      refine ⟨rfl, rfl, rfl, ?_⟩
      intro tid2 hid2
      exact Option.noConfusion hid2
    | some tid =>
      refine ⟨rfl, rfl, rfl, ?_⟩
      intro tid2 hid2
      cases hid2
      rfl

/-- Witness for C1 at a concrete playing state with three frames. -/
theorem tick_playing_spec_witness :
    (playerPlaying3.isPlaying = true ∧ playerPlaying3.frames ≠ []) ∧
      (tick playerPlaying3).currentIndex = 2 :=
  ⟨⟨rfl, by decide⟩, by
    have h := (tick_playing_spec playerPlaying3 rfl (by decide)).1 (by decide)
    rw [h]
    rfl⟩

/-- C7 counterexample: play is not a no-op while already playing - a second
play call on a playing state changes the state and leaves two live interval
timers, the first of them no longer tracked. -/
theorem play_while_playing_cex :
    (play playerP1).isPlaying = true ∧ play (play playerP1) ≠ play playerP1 ∧
      (play (play playerP1)).liveTimers.length = 2 := by
  refine ⟨rfl, ?_, rfl⟩
  decide

/-- C7 amended: play is a no-op when there are no frames, and the
single-tracked-timer invariant - the live timers are exactly the tracked
handle and isPlaying mirrors it - is preserved by togglePlay, pause and
tick (togglePlay never calls play while playing); a direct play call on a
playing state, however, breaks it, as the counterexample shows. -/
theorem togglePlay_single_timer :
    ∀ (s : PlayerState), TimerInv s →
      TimerInv (togglePlay s) ∧ TimerInv (pause s) ∧ TimerInv (tick s) ∧
        (s.frames = [] → play s = s) := by
  intro s h
  rcases h with ⟨h1, h2⟩
  have hpause : ∀ (s2 : PlayerState), s2.liveTimers = s2.intervalId.toList →
      TimerInv (pause s2) := by
    intro s2 hl
    rw [pause]
    cases hid : s2.intervalId with
    | none => exact ⟨by simpa [hid] using hl, rfl⟩
    | some tid =>
      refine ⟨?_, rfl⟩
      simp only [hid, Option.toList] at hl
      simp [hl]
  have hplay : s.isPlaying = false → TimerInv (play s) := by
    intro hp
    rw [play]
    by_cases hlen : s.frames.length = 0
    · rw [if_pos hlen]; exact ⟨h1, h2⟩
    · rw [if_neg hlen]
      have hnone : s.intervalId = none := by
        cases hid : s.intervalId with
        | none => rfl
        | some tid => rw [hp, hid] at h2; simp at h2
      refine ⟨?_, ?_⟩
      · rw [hnone] at h1
        simp only [Option.toList] at h1
        simp [h1, Option.toList]
      · simp
  refine ⟨?_, hpause s h1, ?_, ?_⟩
  · rw [togglePlay]
    cases hp : s.isPlaying with
    | true => rw [if_pos rfl]; exact hpause s h1
    | false =>
      rw [if_neg (by simp)]
      exact hplay hp
  · rw [tick]
    by_cases hend : s.currentIndex + 1 ≥ s.frames.length
    · rw [if_pos hend]
      by_cases hloop : s.loop = true
      · rw [if_pos hloop]; exact ⟨h1, h2⟩
      · rw [if_neg hloop]
        exact hpause { s with currentIndex := s.frames.length - 1 } h1
    · rw [if_neg hend]; exact ⟨h1, h2⟩
  · intro hfr
    rw [play, if_pos (by rw [hfr]; rfl)]

/-- Witness for C7's amended theorem at a concrete paused state. -/
theorem togglePlay_single_timer_witness :
    TimerInv playerP1 ∧
      (TimerInv (togglePlay playerP1) ∧ TimerInv (pause playerP1) ∧ TimerInv (tick playerP1) ∧
        (playerP1.frames = [] → play playerP1 = playerP1)) :=
  ⟨⟨rfl, rfl⟩, togglePlay_single_timer playerP1 ⟨rfl, rfl⟩⟩

/-- C8 counterexample: seeking to 5 in a three-frame player leaves
currentIndex at 5, not clamped to the last valid index 2. -/
theorem seek_no_clamp_cex :
    (seek playerP3 5).currentIndex = 5 ∧
      (seek playerP3 5).currentIndex ≠ min 5 (playerP3.frames.length - 1) := by
  refine ⟨rfl, ?_⟩
  decide

/-- C8 amended: both seek handlers force a pause first (isPlaying cleared,
timer handle cancelled) and then assign the requested index to currentIndex
verbatim, with no clamping; the frame list is untouched. -/
theorem seek_pauses_and_sets_verbatim :
    ∀ (s : PlayerState) (v : Nat),
      (seek s v).currentIndex = v ∧ (seek s v).isPlaying = false ∧
        (seek s v).intervalId = none ∧ (seek s v).frames = s.frames := by
  intro s v
  rw [seek, pause]
  cases hid : s.intervalId <;> simp [hid]

/-- C2 counterexample: with two frames, reorder(5, 0) is not a no-op - the
out-of-range fromIndex removes nothing, and the second splice inserts the
resulting undefined at position 0, growing the stored array. -/
theorem reorderFrames_invalid_cex :
    reorderFrames [frA, frB] 5 0 ≠ [frA, frB].map Option.some := by
  decide

/-- C2 amended: when both indices are valid for the current length, the
element at fromIndex is removed and re-inserted at toIndex, shifting the
elements in between and preserving the relative order of the rest (erase
then insert); the source performs no index validation, so an invalid index
is not a no-op but follows raw splice semantics, as the counterexample
shows. -/
theorem reorderFrames_valid_moves :
    ∀ (l : List Frame) (f t : Nat) (hf : f < l.length), t < l.length →
      reorderFrames l (f : Int) (t : Int) =
        ((l.eraseIdx f).insertIdx t (l.get ⟨f, hf⟩)).map Option.some := by
  intro l f t hf ht
  exact reorderFrames_valid l f t hf ht

/-- Witness for C2's amended theorem: moving the head of a three-frame list
to position 2. -/
theorem reorderFrames_valid_moves_witness :
    (0 < ([frA, frB, frC] : List Frame).length ∧ 2 < ([frA, frB, frC] : List Frame).length) ∧
      reorderFrames [frA, frB, frC] 0 2 =
        ((([frA, frB, frC] : List Frame).eraseIdx 0).insertIdx 2
            (([frA, frB, frC] : List Frame).get ⟨0, by decide⟩)).map Option.some :=
  ⟨⟨by decide, by decide⟩, reorderFrames_valid_moves [frA, frB, frC] 0 2 (by decide) (by decide)⟩

/-- C3 counterexample: a corrupt persisted record is not treated as an
empty sequence - JSON.parse's failure propagates out of getFrames. -/
theorem getFrames_corrupt_cex :
    getFrames (some ("corrupt" : String)) ≠ Except.ok ([] : List Frame) ∧
      getFrames (some ("corrupt" : String)) = Except.error JsError.parseError := by
  have h : getFrames (some ("corrupt" : String)) = Except.error JsError.parseError := rfl
  refine ⟨?_, h⟩
  rw [h]
  intro hc
  exact Except.noConfusion hc

/-- C3 amended: an absent record, and an empty-string record (both falsy),
are read as the empty sequence; an unparseable record, however, makes
getFrames propagate the parse failure (the source calls JSON.parse with no
try/catch), so corruption is a raised error rather than an empty list. -/
theorem getFrames_absent_empty_corrupt :
    getFrames none = Except.ok ([] : List Frame) ∧
      getFrames (some ("" : String)) = Except.ok ([] : List Frame) ∧
      getFrames (some ("corrupt" : String)) = Except.error JsError.parseError :=
  ⟨rfl, rfl, rfl⟩

/-- C5 counterexample: two addFrame calls in the same millisecond whose
Math.random draws coincide produce two distinct frames with the same id,
so ids are not pairwise distinct. -/
theorem addFrame_same_rand_cex :
    ((addFrame { storage := none, quota := 1000, events := [] } 0 ("abc" : String)
        ("A" : String)).toOption.bind
      (fun r => (addFrame r.1 0 ("abc" : String) ("B" : String)).toOption.map
        (fun r2 => (decide (r.2.id = r2.2.id), decide (r.2 = r2.2))))) =
      some (true, false) := by
  decide

/-- C5 amended: the id addFrame assigns is frame-now-rand, so ids from a
run of add calls are pairwise distinct provided the Math.random suffixes
drawn are pairwise distinct; the code itself does not enforce this, and
equal draws in the same millisecond collide, as the counterexample shows. -/
theorem addFrame_ids_unique_of_distinct_rand :
    (∀ (st : StoreState) (now : Nat) (rand dataUrl : String) (st2 : StoreState) (f : Frame),
        addFrame st now rand dataUrl = Except.ok (st2, f) → f.id = mkFrameId now rand)
    ∧ ∀ (oracle : List (Nat × String)), (oracle.map Prod.snd).Nodup →
        (oracle.map (fun p => mkFrameId p.1 p.2)).Nodup := by
  constructor
  · intro st now rand dataUrl st2 f h
    rw [addFrame] at h
    rcases hg : getFrames st.storage with e | frames
    · rw [hg] at h; exact Except.noConfusion h
    · rw [hg] at h
      simp only at h
      rcases hs : saveFrames st
          (frames ++ [{ id := mkFrameId now rand, dataUrl := dataUrl, timestamp := now }]) with
        e | st3
      · rw [hs] at h; exact Except.noConfusion h
      · rw [hs] at h
        simp only [Except.ok.injEq, Prod.mk.injEq] at h
        rw [← h.2]
  · intro oracle h
    unfold List.Nodup at h ⊢
    rw [List.pairwise_map] at h ⊢
    exact h.imp (fun hne hgeq => hne (mkFrameId_inj_rand hgeq))

/-- Witness for C5's amended theorem: two same-millisecond draws with
different suffixes give distinct ids. -/
theorem addFrame_ids_unique_of_distinct_rand_witness :
    (([(0, ("aa" : String)), (0, ("bb" : String))].map Prod.snd).Nodup) ∧
      (([(0, ("aa" : String)), (0, ("bb" : String))].map
          (fun p => mkFrameId p.1 p.2)).Nodup) :=
  ⟨by decide, addFrame_ids_unique_of_distinct_rand.2 _ (by decide)⟩

/-- C4: an add on a store listing l either succeeds - persisting exactly
l plus the new frame, so a reload lists l ++ [f] - or fails with the quota
error propagating to the caller, in which case the persisted record is
untouched and a subsequent list still yields the original l; there is no
silent partial state. -/
theorem addFrame_quota_dichotomy :
    ∀ (st : StoreState) (now : Nat) (rand img : String) (l : List Frame),
      getFrames st.storage = Except.ok l →
      (∃ f : Frame, addFrame st now rand img =
          Except.ok ({ storage := some (serializeFrames (l ++ [f])), quota := st.quota,
                       events := st.events ++ [l ++ [f]] }, f)
        ∧ getFrames (some (serializeFrames (l ++ [f]))) = Except.ok (l ++ [f]))
      ∨ (addFrame st now rand img = Except.error JsError.quotaExceeded
        ∧ getFrames st.storage = Except.ok l) := by
  intro st now rand img l h
  by_cases hq : (serializeFrames
      (l ++ [{ id := mkFrameId now rand, dataUrl := img, timestamp := now }])).length ≤ st.quota
  · left
    refine ⟨{ id := mkFrameId now rand, dataUrl := img, timestamp := now }, ?_,
      getFrames_serializeFrames _⟩
    rw [addFrame, h]
    simp only
    rw [saveFrames, setItem, if_pos hq]
  · right
    refine ⟨?_, h⟩
    rw [addFrame, h]
    simp only
    rw [saveFrames, setItem, if_neg hq]

/-- Witness for C4 at a zero-quota store, where the add fails with the
quota error and the record stays absent. -/
theorem addFrame_quota_dichotomy_witness :
    getFrames (StoreState.mk none 0 []).storage = Except.ok ([] : List Frame) ∧
      ((∃ f : Frame, addFrame (StoreState.mk none 0 []) 1 ("r" : String) ("i" : String) =
          Except.ok ({ storage := some (serializeFrames (([] : List Frame) ++ [f])),
                       quota := (StoreState.mk none 0 []).quota,
                       events := (StoreState.mk none 0 []).events ++ [([] : List Frame) ++ [f]] },
            f)
        ∧ getFrames (some (serializeFrames (([] : List Frame) ++ [f]))) =
            Except.ok (([] : List Frame) ++ [f]))
      ∨ (addFrame (StoreState.mk none 0 []) 1 ("r" : String) ("i" : String) =
            Except.error JsError.quotaExceeded
        ∧ getFrames (StoreState.mk none 0 []).storage = Except.ok ([] : List Frame))) :=
  ⟨rfl, addFrame_quota_dichotomy (StoreState.mk none 0 []) 1 ("r" : String) ("i" : String)
    [] rfl⟩

/-- C6: a successful add appends the returned frame to the persisted
record, so a fresh store instance reading the same key lists the original
frames plus a frame equal to the returned one - same id (the generated
frame-now-rand) and same image payload. -/
theorem addFrame_reload_roundtrip :
    ∀ (st : StoreState) (now : Nat) (rand img : String) (l : List Frame)
      (st2 : StoreState) (f : Frame),
      getFrames st.storage = Except.ok l →
      addFrame st now rand img = Except.ok (st2, f) →
      getFrames st2.storage = Except.ok (l ++ [f]) ∧ f ∈ l ++ [f] ∧
        f.dataUrl = img ∧ f.id = mkFrameId now rand := by
  intro st now rand img l st2 f h h2
  rw [addFrame, h] at h2
  simp only at h2
  rcases hs : saveFrames st
      (l ++ [{ id := mkFrameId now rand, dataUrl := img, timestamp := now }]) with e | st3
  · rw [hs] at h2; exact Except.noConfusion h2
  · rw [hs] at h2
    simp only [Except.ok.injEq, Prod.mk.injEq] at h2
    obtain ⟨hst, hf⟩ := h2
    rw [saveFrames, setItem] at hs
    by_cases hq : (serializeFrames
        (l ++ [{ id := mkFrameId now rand, dataUrl := img, timestamp := now }])).length ≤
          st.quota
    · rw [if_pos hq] at hs
      simp only [Except.ok.injEq] at hs
      refine ⟨?_, by simp, ?_, ?_⟩
      · rw [← hst, ← hs, ← hf]
        exact getFrames_serializeFrames _
      · rw [← hf]
      · rw [← hf]
    · rw [if_neg hq] at hs
      exact Except.noConfusion hs

/-- Witness for C6: adding to an empty store and re-reading the persisted
key yields the one appended frame. -/
theorem addFrame_reload_roundtrip_witness :
    getFrames (StoreState.mk none 1000 []).storage = Except.ok ([] : List Frame) ∧
      addFrame (StoreState.mk none 1000 []) 5 ("abc" : String) ("d" : String) =
        Except.ok (StoreState.mk
          (some ("[\x7b\"id\":\"frame-5-abc\",\"dataUrl\":\"d\",\"timestamp\":5\x7d]" : String))
          1000 [[Frame.mk ("frame-5-abc" : String) ("d" : String) 5]],
          Frame.mk ("frame-5-abc" : String) ("d" : String) 5) ∧
      getFrames (StoreState.mk
          (some ("[\x7b\"id\":\"frame-5-abc\",\"dataUrl\":\"d\",\"timestamp\":5\x7d]" : String))
          1000 [[Frame.mk ("frame-5-abc" : String) ("d" : String) 5]]).storage =
        Except.ok (([] : List Frame) ++ [Frame.mk ("frame-5-abc" : String) ("d" : String) 5]) :=
  ⟨rfl, rfl,
    (addFrame_reload_roundtrip (StoreState.mk none 1000 []) 5 ("abc" : String) ("d" : String)
      [] _ _ rfl rfl).1⟩

/-- C10: deleting an id that is not in the store leaves the sequence
unchanged, yet still rewrites the full (unchanged) sequence to the
persisted record and dispatches a framesUpdated event carrying it. -/
theorem deleteFrame_absent_id :
    ∀ (st : StoreState) (l : List Frame) (delId : String),
      getFrames st.storage = Except.ok l →
      delId ∉ l.map Frame.id →
      (serializeFrames l).length ≤ st.quota →
      deleteFrame st delId =
        Except.ok { storage := some (serializeFrames l), quota := st.quota,
                    events := st.events ++ [l] }
      ∧ getFrames (some (serializeFrames l)) = Except.ok l := by
  intro st l delId h hid hq
  have hfil : l.filter (fun f => f.id ≠ delId) = l := by
    rw [List.filter_eq_self]
    intro a ha
    simp only [decide_eq_true_eq]
    intro hc
    exact hid (List.mem_map.mpr ⟨a, ha, hc⟩)
  refine ⟨?_, getFrames_serializeFrames l⟩
  rw [deleteFrame, h]
  simp only
  rw [hfil, saveFrames, setItem, if_pos hq]

/-- Witness for C10: deleting an absent id from a store holding one frame
rewrites the same one-frame record and emits the unchanged list. -/
theorem deleteFrame_absent_id_witness :
    getFrames (StoreState.mk
        (some ("[\x7b\"id\":\"a\",\"dataUrl\":\"u\",\"timestamp\":0\x7d]" : String))
        100 []).storage = Except.ok [frA] ∧
      ("zz" : String) ∉ [frA].map Frame.id ∧
      (serializeFrames [frA]).length ≤ 100 ∧
      deleteFrame (StoreState.mk
          (some ("[\x7b\"id\":\"a\",\"dataUrl\":\"u\",\"timestamp\":0\x7d]" : String))
          100 []) ("zz" : String) =
        Except.ok { storage := some (serializeFrames [frA]), quota := 100,
                    events := [] ++ [[frA]] } ∧
      getFrames (some (serializeFrames [frA])) = Except.ok [frA] :=
  ⟨rfl, by decide, by decide,
    (deleteFrame_absent_id (StoreState.mk
        (some ("[\x7b\"id\":\"a\",\"dataUrl\":\"u\",\"timestamp\":0\x7d]" : String))
        100 []) [frA] ("zz" : String) rfl (by decide) (by decide)).1,
    (deleteFrame_absent_id (StoreState.mk
        (some ("[\x7b\"id\":\"a\",\"dataUrl\":\"u\",\"timestamp\":0\x7d]" : String))
        100 []) [frA] ("zz" : String) rfl (by decide) (by decide)).2⟩

/-- C9 counterexample: with the WebM format selected and both encoders
unavailable, the export produces no artifact at all - the catch block only
alerts, with no per-frame fallback - so "one artifact per frame" fails. -/
theorem downloadVideo_webm_cex :
    downloadVideo (some ("webm" : String)) false false 0 [frA] = [] ∧
      ([] : List Artifact).length ≠ [frA].length := by
  refine ⟨rfl, ?_⟩
  decide

/-- C9 amended: for the GIF export format (the default when the selector is
absent), an unavailable GIF encoder falls through to the per-frame
download, which emits exactly one artifact per frame, in sequence order,
named frame-NNN.png with the 1-based index zero-padded to three digits and
carrying that frame's payload; the WebM format, by contrast, produces
nothing when its encoder is unavailable, as the counterexample shows. -/
theorem downloadVideo_gif_fallback :
    ∀ (format : Option String) (recorderAvailable : Bool) (now : Nat) (frames : List Frame),
      (format = none ∨ format = some ("gif" : String)) →
      downloadVideo format false recorderAvailable now frames = downloadFramesAsZip frames
      ∧ (downloadFramesAsZip frames).length = frames.length
      ∧ ∀ (i : Nat) (h : i < frames.length),
          (downloadFramesAsZip frames).get? i =
            some { filename := ("frame-" : String) ++ padStart3 (String.mk (natToChars (i + 1)))
                     ++ (".png" : String),
                   payload := (frames.get ⟨i, h⟩).dataUrl } := by
  intro format recorderAvailable now frames hfmt
  refine ⟨?_, ?_, ?_⟩
  · rcases hfmt with hfmt | hfmt <;> subst hfmt <;> rfl
  · rw [downloadFramesAsZip]
    simp [List.enum_length]
  · intro i h
    rw [downloadFramesAsZip]
    rw [List.get?_map, List.get?_enum, List.get?_eq_get h]
    rfl

/-- Witness for C9's amended theorem on a single frame with the gif format
selected. -/
theorem downloadVideo_gif_fallback_witness :
    (some ("gif" : String) = none ∨ some ("gif" : String) = some ("gif" : String)) ∧
      (downloadVideo (some ("gif" : String)) false false 3 [frA] = downloadFramesAsZip [frA]
      ∧ (downloadFramesAsZip [frA]).length = ([frA] : List Frame).length
      ∧ ∀ (i : Nat) (h : i < ([frA] : List Frame).length),
          (downloadFramesAsZip [frA]).get? i =
            some { filename := ("frame-" : String) ++ padStart3 (String.mk (natToChars (i + 1)))
                     ++ (".png" : String),
                   payload := (([frA] : List Frame).get ⟨i, h⟩).dataUrl }) :=
  ⟨Or.inr rfl,
    downloadVideo_gif_fallback (some ("gif" : String)) false 3 [frA] (Or.inr rfl)⟩
